import Mathlib

/-!
Verification development for the PDF upload service (Express + Postgres).

The definitions below are a shallow embedding of `backend/src/server.ts`:
the `pdf_files` catalog table is a list of rows, the blob store is a list
of file paths, and each HTTP route handler is a pure function from the
request and the current state to a response and the next state.  Machine
integers are modelled as `Nat` (the quantities involved — byte counts,
page numbers, timestamps — are far below any overflow boundary, and the
JavaScript numbers involved stay below 2^53 where `Number` arithmetic on
integers is exact).
-/

namespace PdfUpload

/-- A row of the `pdf_files` table (see `database/init.ts` for the schema
and the `INSERT` in the upload route for how rows are built).  `upload_date`
is a timestamp modelled as a `Nat`. -/
structure FileRecord where
  id : String
  custom_name : String
  original_name : String
  file_name : String
  file_path : String
  file_size : Nat
  mime_type : String
  upload_date : Nat
deriving Repr, DecidableEq

/-! ## `formatFileSize` (server.ts lines 89–95)

`const i = Math.floor(Math.log(bytes) / Math.log(k))` is the floor of the
base-1024 logarithm; we model it exactly as `Nat.log 1024 bytes`.
`parseFloat((bytes / Math.pow(k, i)).toFixed(2))` rounds the exact dyadic
quotient to two decimals (round half away from zero, here half up since the
value is positive) and strips trailing zeros; `fmt2` below renders that
decimal.  `sizes[i]` for `i ≥ 4` is `undefined` in JavaScript, which
stringifies as `"undefined"`. -/

/-- The `sizes` array of `formatFileSize`. -/
def sizesArr : List String := ["Bytes", "KB", "MB", "GB"]

/-- Round-half-up of the rational `num / den` to the nearest integer. -/
def roundHalfUp (num den : Nat) : Nat := (2 * num + den) / (2 * den)

/-- Render `r / 100` as JavaScript renders `parseFloat(x.toFixed(2))`:
at most two decimals, trailing zeros dropped. -/
def fmt2 (r : Nat) : String :=
  let ip := r / 100
  let fr := r % 100
  if fr == 0 then toString ip
  else if fr % 10 == 0 then toString ip ++ "." ++ toString (fr / 10)
  else if fr < 10 then toString ip ++ ".0" ++ toString fr
  else toString ip ++ "." ++ toString fr

/-- `formatFileSize` from server.ts. -/
def formatFileSize (bytes : Nat) : String :=
  if bytes == 0 then "0 Bytes"
  else
    fmt2 (roundHalfUp (bytes * 100) (1024 ^ Nat.log 1024 bytes)) ++ " " ++
      sizesArr.getD (Nat.log 1024 bytes) "undefined"

/-! ## SQL `ILIKE` pattern matching

The listing route builds the clause
`custom_name ILIKE $3 OR original_name ILIKE $3` with parameter
`%<search>%`.  Postgres `LIKE` patterns: `%` matches any sequence, `_`
matches any single character, `\` escapes the next character, anything
else matches itself; `ILIKE` lowercases both sides first.  We lex the
pattern into tokens and run the standard backtracking matcher. -/

/-- One token of a `LIKE` pattern. -/
inductive LTok where
  | any : LTok
  | one : LTok
  | lit : Char → LTok
deriving Repr, DecidableEq

/-- Lex a `LIKE` pattern into tokens (backslash is the escape character). -/
def lexPat : List Char → List LTok
  | [] => []
  | c :: ps =>
    if c = '\\' then
      match ps with
      | [] => [LTok.lit '\\']
      | d :: ps2 => LTok.lit d :: lexPat ps2
    else if c = '%' then LTok.any :: lexPat ps
    else if c = '_' then LTok.one :: lexPat ps
    else LTok.lit c :: lexPat ps

/-- Run a matcher on every suffix of the string and accept if any suffix
is accepted: the behaviour of a `%` in a `LIKE` pattern. -/
def suffixAny (f : List Char → Bool) : List Char → Bool
  | [] => f []
  | c :: s => f (c :: s) || suffixAny f s

/-- The `LIKE` matcher over lexed tokens. -/
def tokMatch : List LTok → List Char → Bool
  | [], s => s.isEmpty
  | LTok.any :: ps, s => suffixAny (tokMatch ps) s
  | LTok.one :: ps, s =>
    match s with
    | [] => false
    | _ :: s2 => tokMatch ps s2
  | LTok.lit a :: ps, s =>
    match s with
    | [] => false
    | c :: s2 => (c == a) && tokMatch ps s2

/-- Lowercase a string into its character list, as `ILIKE` lowercases
both operands. -/
def lowerL (s : String) : List Char := s.data.map Char.toLower

/-- `s ILIKE '%' || t || '%'`: the test applied by the listing route's
where-clause to a single column value `s` for search term `t`. -/
def ilikeContains (t s : String) : Bool :=
  tokMatch (lexPat (('%' :: lowerL t) ++ ['%'])) (lowerL s)

/-- Boolean test that `t` occurs at the start of `s`. -/
def isPrefixB : List Char → List Char → Bool
  | [], _ => true
  | _ :: _, [] => false
  | a :: t, b :: s => (b == a) && isPrefixB t s

/-- Boolean test that `t` occurs contiguously somewhere inside `s`. -/
def isSubseg (t : List Char) : List Char → Bool
  | [] => isPrefixB t []
  | c :: s => isPrefixB t (c :: s) || isSubseg t s

/-- Case-insensitive substring containment — the relation the spec says
the search implements. -/
def containsCI (t s : String) : Bool := isSubseg (lowerL t) (lowerL s)

/-- `t` holds no `LIKE` metacharacter (`%`, `_` or `\`). -/
def noMeta (t : List Char) : Bool :=
  t.all fun c => decide (c ≠ '%' ∧ c ≠ '_' ∧ c ≠ '\\')

/-! ## The listing route `GET /api/files` (server.ts lines 182–231) -/

/-- The row predicate of the where-clause
`custom_name ILIKE $3 OR original_name ILIKE $3`. -/
def matchesSearch (s : String) (r : FileRecord) : Bool :=
  ilikeContains s r.custom_name || ilikeContains s r.original_name

/-- The rows selected by the (optional) where-clause.  JavaScript's
`if (search)` treats the empty string as falsy, so `some ""` selects
every row, exactly like an absent parameter. -/
def filteredRows (cat : List FileRecord) (search : Option String) : List FileRecord :=
  match search with
  | none => cat
  | some s => if s == "" then cat else cat.filter (matchesSearch s)

/-- Insert a row into a list kept in descending `upload_date` order. -/
def insertDesc (r : FileRecord) : List FileRecord → List FileRecord
  | [] => [r]
  | x :: xs => if x.upload_date ≤ r.upload_date then r :: x :: xs else x :: insertDesc r xs

/-- `ORDER BY upload_date DESC`. -/
def sortByDateDesc : List FileRecord → List FileRecord
  | [] => []
  | x :: xs => insertDesc x (sortByDateDesc xs)

/-- `Math.ceil(total / limit)` on natural numbers (for `limit ≥ 1`;
the claims about the route only concern page sizes of at least 1). -/
def ceilDiv (a b : Nat) : Nat := (a + b - 1) / b

/-- The `pagination` object of the listing response. -/
structure PaginationInfo where
  page : Nat
  limit : Nat
  total : Nat
  totalPages : Nat
deriving Repr, DecidableEq

/-- The listing response: the selected rows plus pagination metadata. -/
structure FilesResult where
  files : List FileRecord
  pagination : PaginationInfo
deriving Repr, DecidableEq

/-- The body of `GET /api/files`: filter, sort descending by upload date,
apply `LIMIT $1 OFFSET $2` with `offset = (page − 1) * limit`, and count
the matching rows with the same where-clause. -/
def listFilesResult (cat : List FileRecord) (search : Option String)
    (page limit : Nat) : FilesResult :=
  let offset := (page - 1) * limit
  let rows := filteredRows cat search
  let total := rows.length
  { files := ((sortByDateDesc rows).drop offset).take limit
    pagination :=
      { page := page, limit := limit, total := total, totalPages := ceilDiv total limit } }

/-! ## The upload route `POST /api/upload` (server.ts lines 38–86, 110–180) -/

/-- One part of the multipart request, as multer hands it to the handler:
the declared name, MIME type and size from the client, and the storage
name/path multer assigned on disk. -/
structure UploadItem where
  originalname : String
  mimetype : String
  size : Nat
  filename : String
  path : String
deriving Repr, DecidableEq

/-- `allowedMimes` of the multer `fileFilter`. -/
def allowedMimes : List String := ["application/pdf", "application/x-pdf"]

/-- Default of `MAX_FILE_SIZE` (`'10485760'`). -/
def MAX_FILE_SIZE_default : Nat := 10485760

/-- Whether multer accepts one part: the `fileFilter` MIME check and the
`limits.fileSize` bound (a larger file raises `LIMIT_FILE_SIZE`). -/
def multerAccepts (maxSize : Nat) (f : UploadItem) : Bool :=
  allowedMimes.contains f.mimetype && decide (f.size ≤ maxSize)

/-- Outcome of `JSON.parse` on the `customNames` form field: field absent
(`customNames` falsy, yielding `[]`), invalid JSON (`JSON.parse` throws),
or a JSON array of strings. -/
inductive CustomNamesField where
  | absent : CustomNamesField
  | malformed : CustomNamesField
  | given : List String → CustomNamesField
deriving Repr, DecidableEq

/-- The upload request as seen by the route handler. -/
structure UploadReq where
  files : List UploadItem
  customNames : CustomNamesField
deriving Repr, DecidableEq

/-- JavaScript `s.replace(pat, '')` with a string pattern: remove the
first occurrence of `pat`, leave `s` unchanged when `pat` is absent. -/
def removeFirstSeg (pat : List Char) : List Char → List Char
  | [] => []
  | c :: s => if isPrefixB pat (c :: s) then (c :: s).drop pat.length
              else c :: removeFirstSeg pat s

/-- `s.replace('.pdf', '')` as the upload handler applies it. -/
def jsStripPdf (s : String) : String := ⟨removeFirstSeg ".pdf".data s.data⟩

/-- `customNamesArray[i] || file.originalname.replace('.pdf', '')`:
an out-of-range index yields `undefined` and an empty string is falsy,
so both fall back to the declared name with its first `.pdf` removed. -/
def resolveCustomName (arr : List String) (i : Nat) (originalname : String) : String :=
  let v := arr.getD i ""
  if v == "" then jsStripPdf originalname else v

/-- The row the handler inserts for the `i`-th part.  `ids` is the stream
of `uuidv4()` draws and `now` the insertion timestamp. -/
def mkUploadRecord (ids : Nat → String) (now : Nat) (arr : List String)
    (i : Nat) (f : UploadItem) : FileRecord :=
  { id := ids i
    custom_name := resolveCustomName arr i f.originalname
    original_name := f.originalname
    file_name := f.filename
    file_path := f.path
    file_size := f.size
    mime_type := f.mimetype
    upload_date := now }

/-- Result of the upload handler: HTTP status, `success` flag, the
per-file results, and the catalog after the call. -/
structure UploadOutcome where
  status : Nat
  success : Bool
  results : List FileRecord
  catalog : List FileRecord
deriving Repr, DecidableEq

/-- The route handler body (after multer): reject an empty batch, reject
a custom-names field `JSON.parse` throws on, otherwise insert one row per
part in request order. -/
def uploadHandler (req : UploadReq) (ids : Nat → String) (now : Nat)
    (cat : List FileRecord) : UploadOutcome :=
  if req.files.length == 0 then ⟨400, false, [], cat⟩
  else
    match req.customNames with
    | CustomNamesField.malformed => ⟨400, false, [], cat⟩
    | CustomNamesField.absent =>
        let recs := req.files.enum.map fun p => mkUploadRecord ids now [] p.1 p.2
        ⟨200, true, recs, cat ++ recs⟩
    | CustomNamesField.given ns =>
        let recs := req.files.enum.map fun p => mkUploadRecord ids now ns p.1 p.2
        ⟨200, true, recs, cat ++ recs⟩

/-- Result of the whole endpoint, including the blob directory. -/
structure UploadEndpointOutcome where
  status : Nat
  success : Bool
  results : List FileRecord
  catalog : List FileRecord
  blobs : List String
deriving Repr, DecidableEq

/-- The whole `POST /api/upload` endpoint: multer first rejects the
request (400 via `handleUploadError`, removing any blob it wrote for the
request) when a part fails the MIME filter or the size limit, or when
more than 10 parts arrive; otherwise it stores every part's blob and the
handler runs. -/
def uploadEndpoint (maxSize : Nat) (req : UploadReq) (ids : Nat → String) (now : Nat)
    (cat : List FileRecord) (blobs : List String) : UploadEndpointOutcome :=
  if decide (req.files.length ≤ 10) && req.files.all (multerAccepts maxSize) then
    let o := uploadHandler req ids now cat
    ⟨o.status, o.success, o.results, o.catalog, blobs ++ req.files.map UploadItem.path⟩
  else
    ⟨400, false, [], cat, blobs⟩

/-! ## The delete route `DELETE /api/files/:id` (server.ts lines 277–319) -/

/-- Result of the delete endpoint. -/
structure DeleteOutcome where
  status : Nat
  success : Bool
  catalog : List FileRecord
  blobs : List String
deriving Repr, DecidableEq

/-- `DELETE /api/files/:id`: look the row up, 404 when absent; otherwise
delete the row, then remove the blob only if `fs.existsSync` reports it
present, and report success either way. -/
def deleteEndpoint (cat : List FileRecord) (blobs : List String) (id : String) :
    DeleteOutcome :=
  match cat.find? (fun r => r.id == id) with
  | none => ⟨404, false, cat, blobs⟩
  | some r =>
    let cat2 := cat.filter fun x => !(x.id == id)
    let blobs2 := if blobs.contains r.file_path then blobs.erase r.file_path else blobs
    ⟨200, true, cat2, blobs2⟩

/-! ## Helper lemmas -/

/-- `ceilDiv t s` is a lower bound exactly for the multiples of `s`
reaching `t`: the defining property of the ceiling of `t / s`. -/
theorem ceilDiv_le_iff (t s m : Nat) (hs : 0 < s) : ceilDiv t s ≤ m ↔ t ≤ m * s := by
  unfold ceilDiv
  rw [← Nat.lt_succ_iff, Nat.div_lt_iff_lt_mul hs, Nat.succ_mul]
  have h1 : 1 ≤ s := hs
  generalize m * s = K
  omega

/-- `t` never exceeds `ceilDiv t s` pages of `s` records. -/
theorem le_ceilDiv_mul (t s : Nat) (hs : 0 < s) : t ≤ ceilDiv t s * s :=
  (ceilDiv_le_iff t s (ceilDiv t s) hs).mp (Nat.le_refl _)

/-- Rows selected by the where-clause come from the catalog. -/
theorem mem_of_mem_filteredRows {y : FileRecord} {cat : List FileRecord}
    {search : Option String} (h : y ∈ filteredRows cat search) : y ∈ cat := by
  unfold filteredRows at h
  match search with
  | none => exact h
  | some s =>
    by_cases hs : s == ""
    · simp only [hs, if_pos] at h
      exact h
    · simp only [hs, if_neg, Bool.false_eq_true, not_false_iff] at h
      exact (List.mem_filter.mp h).1

/-- Descending-date comparison between two rows. -/
def dateGE (a b : FileRecord) : Prop := b.upload_date ≤ a.upload_date

/-- Members of `insertDesc r l` are `r` or members of `l`. -/
theorem mem_insertDesc {r y : FileRecord} {l : List FileRecord}
    (h : y ∈ insertDesc r l) : y = r ∨ y ∈ l := by
  induction l with
  | nil => simpa [insertDesc] using h
  | cons x xs ih =>
    unfold insertDesc at h
    by_cases hc : x.upload_date ≤ r.upload_date
    · simp only [hc, if_pos] at h
      rcases List.mem_cons.mp h with h1 | h1
      · exact Or.inl h1
      · exact Or.inr h1
    · simp only [hc, if_neg, not_false_iff] at h
      rcases List.mem_cons.mp h with h1 | h1
      · exact Or.inr (by simp [h1])
      · rcases ih h1 with h2 | h2
        · exact Or.inl h2
        · exact Or.inr (List.mem_cons_of_mem _ h2)

/-- Inserting into a descending list keeps it descending. -/
theorem pairwise_insertDesc {r : FileRecord} {l : List FileRecord}
    (h : l.Pairwise dateGE) : (insertDesc r l).Pairwise dateGE := by
  induction l with
  | nil => simp [insertDesc, List.Pairwise]
  | cons x xs ih =>
    unfold insertDesc
    rcases List.pairwise_cons.mp h with ⟨hx, hxs⟩
    by_cases hc : x.upload_date ≤ r.upload_date
    · simp only [hc, if_pos]
      refine List.pairwise_cons.mpr ⟨?_, h⟩
      intro y hy
      rcases List.mem_cons.mp hy with h1 | h1
      · exact h1 ▸ hc
      · exact Nat.le_trans (hx y h1) hc
    · simp only [hc, if_neg, not_false_iff]
      refine List.pairwise_cons.mpr ⟨?_, ih hxs⟩
      intro y hy
      rcases mem_insertDesc hy with h1 | h1
      · subst h1; exact Nat.le_of_lt (Nat.lt_of_not_le hc)
      · exact hx y h1

/-- The sort of the listing route produces a descending list. -/
theorem pairwise_sortByDateDesc (l : List FileRecord) :
    (sortByDateDesc l).Pairwise dateGE := by
  induction l with
  | nil => simp [sortByDateDesc]
  | cons x xs ih => exact pairwise_insertDesc ih

/-- The sort of the listing route only rearranges its input. -/
theorem mem_of_mem_sortByDateDesc {y : FileRecord} {l : List FileRecord}
    (h : y ∈ sortByDateDesc l) : y ∈ l := by
  induction l with
  | nil => simp [sortByDateDesc] at h
  | cons x xs ih =>
    unfold sortByDateDesc at h
    rcases mem_insertDesc h with h1 | h1
    · simp [h1]
    · exact List.mem_cons_of_mem _ (ih h1)

/-- The sort of the listing route preserves length. -/
theorem length_insertDesc (r : FileRecord) (l : List FileRecord) :
    (insertDesc r l).length = l.length + 1 := by
  induction l with
  | nil => rfl
  | cons x xs ih =>
    unfold insertDesc
    by_cases hc : x.upload_date ≤ r.upload_date
    · simp [hc]
    · simp [hc, ih]

theorem length_sortByDateDesc (l : List FileRecord) :
    (sortByDateDesc l).length = l.length := by
  induction l with
  | nil => rfl
  | cons x xs ih => simp [sortByDateDesc, length_insertDesc, ih]

/-- A returned page is a sublist of the sorted selection. -/
theorem files_sublist (cat : List FileRecord) (search : Option String) (page limit : Nat) :
    (listFilesResult cat search page limit).files.Sublist
      (sortByDateDesc (filteredRows cat search)) := by
  unfold listFilesResult
  exact (List.take_sublist _ _).trans (List.drop_sublist _ _)

/-! ## Claims about the listing route -/

/-- C1: for every catalog state, search filter, page `p ≥ 1` and page size
`s ≥ 1`, the listing returns at most `s` records, reports `total` equal to
the number of records matching the filter (all records when no filter is
given), and reports `totalPages` equal to `ceil(total / s)` — characterized
here as the least `m` with `total ≤ m * s`. -/
theorem listFiles_pagination (cat : List FileRecord) (search : Option String)
    (p s : Nat) (_hp : 1 ≤ p) (hs : 1 ≤ s) :
    (listFilesResult cat search p s).files.length ≤ s ∧
    (listFilesResult cat search p s).pagination.total = (filteredRows cat search).length ∧
    (listFilesResult cat search p s).pagination.total ≤
      (listFilesResult cat search p s).pagination.totalPages * s ∧
    (∀ m, (listFilesResult cat search p s).pagination.total ≤ m * s →
      (listFilesResult cat search p s).pagination.totalPages ≤ m) := by
  refine ⟨?_, rfl, ?_, ?_⟩
  · exact List.length_take_le _ _
  · exact le_ceilDiv_mul _ s hs
  · intro m hm
    exact (ceilDiv_le_iff _ s m hs).mpr hm

/-- C1 witness: a concrete catalog of three records listed with page size 2:
at most 2 records per page, `total = 3`, `totalPages = 2` is hit exactly. -/
theorem listFiles_pagination_witness :
    (1 : Nat) ≤ 1 ∧ (1 : Nat) ≤ 2 ∧
    ((listFilesResult
        [⟨"a", "n1", "o1", "f1", "p1", 1, "application/pdf", 3⟩,
         ⟨"b", "n2", "o2", "f2", "p2", 1, "application/pdf", 2⟩,
         ⟨"c", "n3", "o3", "f3", "p3", 1, "application/pdf", 1⟩]
        none 1 2).files.length ≤ 2 ∧
     (listFilesResult
        [⟨"a", "n1", "o1", "f1", "p1", 1, "application/pdf", 3⟩,
         ⟨"b", "n2", "o2", "f2", "p2", 1, "application/pdf", 2⟩,
         ⟨"c", "n3", "o3", "f3", "p3", 1, "application/pdf", 1⟩]
        none 1 2).pagination.total =
       (filteredRows
        [⟨"a", "n1", "o1", "f1", "p1", 1, "application/pdf", 3⟩,
         ⟨"b", "n2", "o2", "f2", "p2", 1, "application/pdf", 2⟩,
         ⟨"c", "n3", "o3", "f3", "p3", 1, "application/pdf", 1⟩] none).length ∧
     (listFilesResult
        [⟨"a", "n1", "o1", "f1", "p1", 1, "application/pdf", 3⟩,
         ⟨"b", "n2", "o2", "f2", "p2", 1, "application/pdf", 2⟩,
         ⟨"c", "n3", "o3", "f3", "p3", 1, "application/pdf", 1⟩]
        none 1 2).pagination.total ≤
       (listFilesResult
        [⟨"a", "n1", "o1", "f1", "p1", 1, "application/pdf", 3⟩,
         ⟨"b", "n2", "o2", "f2", "p2", 1, "application/pdf", 2⟩,
         ⟨"c", "n3", "o3", "f3", "p3", 1, "application/pdf", 1⟩]
        none 1 2).pagination.totalPages * 2) :=
  ⟨Nat.le_refl 1, by omega,
   (listFiles_pagination _ none 1 2 (by omega) (by omega)).1,
   (listFiles_pagination _ none 1 2 (by omega) (by omega)).2.1,
   (listFiles_pagination _ none 1 2 (by omega) (by omega)).2.2.1⟩

/-- C8: for every catalog state and every page request, the records
returned by the listing route are ordered by upload date descending. -/
theorem listFiles_sorted (cat : List FileRecord) (search : Option String)
    (page limit : Nat) :
    (listFilesResult cat search page limit).files.Pairwise dateGE :=
  List.Pairwise.sublist (files_sublist cat search page limit)
    (pairwise_sortByDateDesc _)

/-- C10: a search parameter that is the empty string is treated exactly as
an absent filter: the listing response is identical. -/
theorem listFiles_empty_search (cat : List FileRecord) (page limit : Nat) :
    listFilesResult cat (some "") page limit = listFilesResult cat none page limit := by
  rfl

/-! ## Claims about the delete route -/

/-- C5: deleting an id that is present removes the row (it is absent from
every later listing and from the point lookup the routes use), reports
success with status 200, and the blob removal is best-effort: the blob is
erased when present and the call still succeeds — with the blob directory
untouched — when the blob is already absent. -/
theorem delete_existing (cat : List FileRecord) (blobs : List String)
    (x : String) (r : FileRecord)
    (hfind : cat.find? (fun q => q.id == x) = some r) :
    (deleteEndpoint cat blobs x).status = 200 ∧
    (deleteEndpoint cat blobs x).success = true ∧
    (∀ y ∈ (deleteEndpoint cat blobs x).catalog, y.id ≠ x) ∧
    (∀ search page limit,
      ∀ y ∈ (listFilesResult (deleteEndpoint cat blobs x).catalog search page limit).files,
        y.id ≠ x) ∧
    ((deleteEndpoint cat blobs x).catalog.find? (fun q => q.id == x) = none) ∧
    (blobs.contains r.file_path = true →
      (deleteEndpoint cat blobs x).blobs = blobs.erase r.file_path) ∧
    (blobs.contains r.file_path = false →
      (deleteEndpoint cat blobs x).blobs = blobs) := by
  have hmem : ∀ y ∈ (deleteEndpoint cat blobs x).catalog, y.id ≠ x := by
    intro y hy
    unfold deleteEndpoint at hy
    rw [hfind] at hy
    simp only at hy
    have := (List.mem_filter.mp hy).2
    simpa using this
  refine ⟨?_, ?_, hmem, ?_, ?_, ?_, ?_⟩
  · unfold deleteEndpoint; rw [hfind]
  · unfold deleteEndpoint; rw [hfind]
  · intro search page limit y hy
    have h1 : y ∈ sortByDateDesc (filteredRows (deleteEndpoint cat blobs x).catalog search) :=
      (files_sublist _ search page limit).mem hy
    exact hmem y (mem_of_mem_filteredRows (mem_of_mem_sortByDateDesc h1))
  · exact List.find?_eq_none.mpr fun y hy => by simpa using hmem y hy
  · intro hb
    unfold deleteEndpoint; rw [hfind]
    simp only []
    rw [if_pos hb]
  · intro hb
    unfold deleteEndpoint; rw [hfind]
    simp only []
    rw [if_neg (by intro hc; rw [hb] at hc; cases hc)]

/-- C5 witness: a concrete one-record catalog whose blob is already
absent: the delete still succeeds and the blob directory is unchanged. -/
theorem delete_existing_witness :
    ([⟨"id1", "Doc", "doc.pdf", "pdf-1-doc.pdf", "uploads/pdf-1-doc.pdf", 5,
        "application/pdf", 0⟩] :
      List FileRecord).find? (fun q => q.id == "id1") =
      some ⟨"id1", "Doc", "doc.pdf", "pdf-1-doc.pdf", "uploads/pdf-1-doc.pdf", 5,
        "application/pdf", 0⟩ ∧
    (deleteEndpoint
      [⟨"id1", "Doc", "doc.pdf", "pdf-1-doc.pdf", "uploads/pdf-1-doc.pdf", 5,
        "application/pdf", 0⟩] [] "id1").status = 200 ∧
    (deleteEndpoint
      [⟨"id1", "Doc", "doc.pdf", "pdf-1-doc.pdf", "uploads/pdf-1-doc.pdf", 5,
        "application/pdf", 0⟩] [] "id1").blobs = [] := by
  have h := delete_existing
    [⟨"id1", "Doc", "doc.pdf", "pdf-1-doc.pdf", "uploads/pdf-1-doc.pdf", 5,
      "application/pdf", 0⟩] [] "id1"
    ⟨"id1", "Doc", "doc.pdf", "pdf-1-doc.pdf", "uploads/pdf-1-doc.pdf", 5,
      "application/pdf", 0⟩ (by rfl)
  exact ⟨rfl, h.1, h.2.2.2.2.2.2 (by rfl)⟩

/-- C6: deleting an id with no record returns status 404 and leaves the
catalog (and the blob directory) exactly as before. -/
theorem delete_missing (cat : List FileRecord) (blobs : List String) (x : String)
    (h : ∀ r ∈ cat, r.id ≠ x) :
    deleteEndpoint cat blobs x =
      { status := 404, success := false, catalog := cat, blobs := blobs } := by
  have hfind : cat.find? (fun q => q.id == x) = none :=
    List.find?_eq_none.mpr fun r hr => by simpa using h r hr
  unfold deleteEndpoint
  rw [hfind]

/-- C6 witness: deleting an unknown id from a concrete one-record catalog
returns 404 and the state is unchanged. -/
theorem delete_missing_witness :
    (∀ r ∈ ([⟨"id1", "Doc", "doc.pdf", "f", "p", 5, "application/pdf", 0⟩] :
        List FileRecord), r.id ≠ "nope") ∧
    deleteEndpoint [⟨"id1", "Doc", "doc.pdf", "f", "p", 5, "application/pdf", 0⟩]
        ["p"] "nope" =
      { status := 404, success := false,
        catalog := [⟨"id1", "Doc", "doc.pdf", "f", "p", 5, "application/pdf", 0⟩],
        blobs := ["p"] } := by
  refine ⟨by decide, ?_⟩
  exact delete_missing _ ["p"] "nope" (by decide)

/-! ## Claims about the upload route -/

/-- C4: a batch holding any part whose MIME type is outside
`{application/pdf, application/x-pdf}` or whose size exceeds the
configured maximum (default `10485760 = 10 MiB`) is rejected with
status 400 before the handler runs: no catalog record and no blob is
created. -/
theorem upload_rejects_invalid (maxSize : Nat) (req : UploadReq)
    (ids : Nat → String) (now : Nat) (cat : List FileRecord) (blobs : List String)
    (f : UploadItem) (hf : f ∈ req.files)
    (hbad : f.mimetype ∉ allowedMimes ∨ maxSize < f.size) :
    (uploadEndpoint maxSize req ids now cat blobs).status = 400 ∧
    (uploadEndpoint maxSize req ids now cat blobs).success = false ∧
    (uploadEndpoint maxSize req ids now cat blobs).results = [] ∧
    (uploadEndpoint maxSize req ids now cat blobs).catalog = cat ∧
    (uploadEndpoint maxSize req ids now cat blobs).blobs = blobs ∧
    MAX_FILE_SIZE_default = 10 * 1024 * 1024 := by
  have hacc : multerAccepts maxSize f = false := by
    unfold multerAccepts
    rcases hbad with h | h
    · have hc : allowedMimes.contains f.mimetype = false := by
        rcases hc : allowedMimes.contains f.mimetype with _ | _
        · rfl
        · exact absurd (List.elem_iff.mp hc) h
      rw [hc, Bool.false_and]
    · rw [decide_eq_false (Nat.not_le.mpr h), Bool.and_false]
  have hall : req.files.all (multerAccepts maxSize) = false := by
    rcases ha : req.files.all (multerAccepts maxSize) with _ | _
    · rfl
    · have := List.all_eq_true.mp ha f hf
      rw [hacc] at this
      cases this
  have hcond : (decide (req.files.length ≤ 10) && req.files.all (multerAccepts maxSize)) = false := by
    rw [hall, Bool.and_false]
  unfold uploadEndpoint
  rw [if_neg (by intro hc; rw [hcond] at hc; cases hc)]
  exact ⟨rfl, rfl, rfl, rfl, rfl, rfl⟩

/-- C4 witness: a concrete two-part batch whose second part is a PNG is
rejected whole: 400, no record, no blob. -/
theorem upload_rejects_invalid_witness :
    (⟨"c.png", "image/png", 3, "fn2", "p2"⟩ : UploadItem) ∈
      ([⟨"a.pdf", "application/pdf", 3, "fn1", "p1"⟩,
        ⟨"c.png", "image/png", 3, "fn2", "p2"⟩] : List UploadItem) ∧
    (uploadEndpoint MAX_FILE_SIZE_default
      ⟨[⟨"a.pdf", "application/pdf", 3, "fn1", "p1"⟩,
        ⟨"c.png", "image/png", 3, "fn2", "p2"⟩], CustomNamesField.absent⟩
      (fun _ => "id") 0 [] []).status = 400 ∧
    (uploadEndpoint MAX_FILE_SIZE_default
      ⟨[⟨"a.pdf", "application/pdf", 3, "fn1", "p1"⟩,
        ⟨"c.png", "image/png", 3, "fn2", "p2"⟩], CustomNamesField.absent⟩
      (fun _ => "id") 0 [] []).catalog = [] ∧
    (uploadEndpoint MAX_FILE_SIZE_default
      ⟨[⟨"a.pdf", "application/pdf", 3, "fn1", "p1"⟩,
        ⟨"c.png", "image/png", 3, "fn2", "p2"⟩], CustomNamesField.absent⟩
      (fun _ => "id") 0 [] []).blobs = [] := by
  have h := upload_rejects_invalid MAX_FILE_SIZE_default
    ⟨[⟨"a.pdf", "application/pdf", 3, "fn1", "p1"⟩,
      ⟨"c.png", "image/png", 3, "fn2", "p2"⟩], CustomNamesField.absent⟩
    (fun _ => "id") 0 [] [] ⟨"c.png", "image/png", 3, "fn2", "p2"⟩
    (by decide) (Or.inl (by decide))
  exact ⟨by decide, h.1, h.2.2.2.1, h.2.2.2.2.1⟩

/-- C9: the handler fails the whole call with a single 400 error — the
catalog untouched — exactly for the request-level problems (zero parts,
or a custom-names field `JSON.parse` throws on); otherwise every part
that reached it is processed: one result and one new catalog row per
part, appended in request order. -/
theorem upload_batch_semantics (req : UploadReq) (ids : Nat → String)
    (now : Nat) (cat : List FileRecord) :
    (((uploadHandler req ids now cat).status = 400 ∧
      (uploadHandler req ids now cat).results = [] ∧
      (uploadHandler req ids now cat).catalog = cat) ↔
      (req.files = [] ∨ req.customNames = CustomNamesField.malformed)) ∧
    ((req.files ≠ [] ∧ req.customNames ≠ CustomNamesField.malformed) →
      ((uploadHandler req ids now cat).status = 200 ∧
       (uploadHandler req ids now cat).success = true ∧
       (uploadHandler req ids now cat).results.length = req.files.length ∧
       (uploadHandler req ids now cat).catalog =
         cat ++ (uploadHandler req ids now cat).results)) := by
  by_cases hf : req.files = []
  · have heq : uploadHandler req ids now cat =
        { status := 400, success := false, results := [], catalog := cat } := by
      unfold uploadHandler
      rw [if_pos (by rw [hf]; rfl)]
    refine ⟨?_, fun hne => absurd hf hne.1⟩
    rw [heq]
    exact iff_of_true ⟨rfl, rfl, rfl⟩ (Or.inl hf)
  · have hlen : ¬ ((req.files.length == 0) = true) := by
      intro hl
      exact hf (List.length_eq_zero.mp (by simpa using hl))
    cases hcn : req.customNames with
    | malformed =>
      have heq : uploadHandler req ids now cat =
          { status := 400, success := false, results := [], catalog := cat } := by
        unfold uploadHandler
        rw [if_neg hlen, hcn]
      refine ⟨?_, fun hne => absurd rfl hne.2⟩
      rw [heq]
      exact iff_of_true ⟨rfl, rfl, rfl⟩ (Or.inr rfl)
    | absent =>
      have heq : uploadHandler req ids now cat =
          { status := 200, success := true,
            results := req.files.enum.map fun p => mkUploadRecord ids now [] p.1 p.2,
            catalog := cat ++ req.files.enum.map fun p => mkUploadRecord ids now [] p.1 p.2 } := by
        unfold uploadHandler
        rw [if_neg hlen, hcn]
      refine ⟨?_, ?_⟩
      · rw [heq]
        refine iff_of_false
          (fun h => by have h1 : (200 : Nat) = 400 := h.1; exact absurd h1 (by decide)) ?_
        intro h
        rcases h with h | h
        · exact hf h
        · cases h
      · intro _
        rw [heq]
        refine ⟨rfl, rfl, ?_, rfl⟩
        simp [List.enum]
    | given ns =>
      have heq : uploadHandler req ids now cat =
          { status := 200, success := true,
            results := req.files.enum.map fun p => mkUploadRecord ids now ns p.1 p.2,
            catalog := cat ++ req.files.enum.map fun p => mkUploadRecord ids now ns p.1 p.2 } := by
        unfold uploadHandler
        rw [if_neg hlen, hcn]
      refine ⟨?_, ?_⟩
      · rw [heq]
        refine iff_of_false
          (fun h => by have h1 : (200 : Nat) = 400 := h.1; exact absurd h1 (by decide)) ?_
        intro h
        rcases h with h | h
        · exact hf h
        · cases h
      · intro _
        rw [heq]
        refine ⟨rfl, rfl, ?_, rfl⟩
        simp [List.enum]

/-- C9 witness: a malformed custom-names field on a nonempty concrete
batch makes the whole call fail with 400 and no inserted record, and the
same batch with a well-formed field is processed whole. -/
theorem upload_batch_semantics_witness :
    (uploadHandler ⟨[⟨"a.pdf", "application/pdf", 3, "fn1", "p1"⟩],
        CustomNamesField.malformed⟩ (fun _ => "id") 0 []).status = 400 ∧
    (uploadHandler ⟨[⟨"a.pdf", "application/pdf", 3, "fn1", "p1"⟩],
        CustomNamesField.malformed⟩ (fun _ => "id") 0 []).catalog = [] ∧
    (uploadHandler ⟨[⟨"a.pdf", "application/pdf", 3, "fn1", "p1"⟩],
        CustomNamesField.given ["A"]⟩ (fun _ => "id") 0 []).results.length = 1 := by
  have h1 := (upload_batch_semantics
    ⟨[⟨"a.pdf", "application/pdf", 3, "fn1", "p1"⟩], CustomNamesField.malformed⟩
    (fun _ => "id") 0 []).1.mpr (Or.inr rfl)
  have h2 := (upload_batch_semantics
    ⟨[⟨"a.pdf", "application/pdf", 3, "fn1", "p1"⟩], CustomNamesField.given ["A"]⟩
    (fun _ => "id") 0 []).2 ⟨by decide, by decide⟩
  exact ⟨h1.1, h1.2.2, h2.2.2.1⟩

/-! ## The custom-name claim (C3) -/

/-- The fallback as the claim reads it: the declared name with its `.pdf`
extension — a trailing `.pdf` — stripped.  Stated from the spec's words,
for comparison with `jsStripPdf`, which removes the *first* occurrence of
`.pdf` anywhere in the name. -/
def specStripPdfExtension (s : String) : String :=
  if isPrefixB ".pdf".data.reverse s.data.reverse then
    String.mk (s.data.reverse.drop 4).reverse
  else s

/-- Removal of surrounding whitespace — what the claim says happens to a
supplied custom name — stated over the character list. -/
def specTrim (s : String) : String :=
  String.mk
    (((s.data.dropWhile Char.isWhitespace).reverse.dropWhile Char.isWhitespace).reverse)

/-- `resolveCustomName` phrased with the supplied-name test first. -/
theorem resolveCustomName_eq (arr : List String) (i : Nat) (o : String) :
    resolveCustomName arr i o =
      if arr.getD i "" ≠ "" then arr.getD i "" else jsStripPdf o := by
  unfold resolveCustomName
  by_cases h : arr.getD i "" = ""
  · rw [if_pos (by simpa using h), if_neg (by simpa using h)]
  · rw [if_neg (by simpa using h), if_pos h]

/-- C3 counterexample: uploading `f.pdf` with the custom name `" Alpha "`
stores `" Alpha "` — not the trimmed `"Alpha"` the claim promises — and
uploading `x.pdfy.pdf` with no custom name stores `"xy.pdf"` (the first
occurrence of `.pdf` removed), not `"x.pdfy"` (the extension stripped). -/
theorem upload_customName_counterexample :
    (uploadHandler
        { files := [⟨"f.pdf", "application/pdf", 3, "fn1", "p1"⟩,
                    ⟨"x.pdfy.pdf", "application/pdf", 4, "fn2", "p2"⟩],
          customNames := CustomNamesField.given [" Alpha "] }
        (fun _ => "id") 0 []).results.map FileRecord.custom_name =
      [" Alpha ", "xy.pdf"] ∧
    specTrim " Alpha " = "Alpha" ∧ (" Alpha " : String) ≠ "Alpha" ∧
    specStripPdfExtension "x.pdfy.pdf" = "x.pdfy" ∧ ("xy.pdf" : String) ≠ "x.pdfy" := by
  refine ⟨by decide, by decide, by decide, by decide, by decide⟩

/-- C3 amended: for every item of an accepted batch, the stored
`customName` is the caller-supplied name at that position *exactly as
supplied* (no trimming) when it is present and non-empty, and otherwise
the declared name with the *first occurrence* of `.pdf` removed (which
coincides with stripping the extension whenever `.pdf` occurs only as a
suffix). -/
theorem upload_customName_amended (files : List UploadItem) (ids : Nat → String)
    (now : Nat) (cat : List FileRecord) (ns : List String) :
    (uploadHandler { files := files, customNames := CustomNamesField.given ns }
        ids now cat).results.map FileRecord.custom_name =
      files.enum.map fun p =>
        if ns.getD p.1 "" ≠ "" then ns.getD p.1 "" else jsStripPdf p.2.originalname := by
  by_cases hf : files = []
  · subst hf
    rfl
  · have hlen : ¬ ((files.length == 0) = true) := by
      intro hl
      exact hf (List.length_eq_zero.mp (by simpa using hl))
    have heq : uploadHandler { files := files, customNames := CustomNamesField.given ns }
        ids now cat =
        { status := 200, success := true,
          results := files.enum.map fun p => mkUploadRecord ids now ns p.1 p.2,
          catalog := cat ++ files.enum.map fun p => mkUploadRecord ids now ns p.1 p.2 } := by
      unfold uploadHandler
      rw [if_neg hlen]
    rw [heq]
    simp only [List.map_map]
    refine List.map_congr_left ?_
    intro p _
    simp [Function.comp, mkUploadRecord, resolveCustomName_eq]

/-- C3 amended witness: one concrete accepted batch, checked both for a
supplied non-empty name and for the fallback. -/
theorem upload_customName_amended_witness :
    (uploadHandler
        { files := [⟨"f.pdf", "application/pdf", 3, "fn1", "p1"⟩,
                    ⟨"x.pdfy.pdf", "application/pdf", 4, "fn2", "p2"⟩],
          customNames := CustomNamesField.given ["Alpha"] }
        (fun _ => "id") 0 []).results.map FileRecord.custom_name =
      ["Alpha", "xy.pdf"] := by
  rw [upload_customName_amended
    [⟨"f.pdf", "application/pdf", 3, "fn1", "p1"⟩,
     ⟨"x.pdfy.pdf", "application/pdf", 4, "fn2", "p2"⟩]
    (fun _ => "id") 0 [] ["Alpha"]]
  decide

/-! ## The size-formatting claim (C7) -/

/-- The unit the code picks is determined by the bracketing powers of
1024: when `1024 ^ i ≤ b < 1024 ^ (i + 1)` — that is, when unit `i` is the
largest unit of which `b` is at least 1 — the rendered string is the
two-decimal value in unit `i` followed by that unit's name. -/
theorem formatFileSize_unit (b i : Nat) (h1 : 1024 ^ i ≤ b) (h2 : b < 1024 ^ (i + 1)) :
    formatFileSize b =
      fmt2 (roundHalfUp (b * 100) (1024 ^ i)) ++ " " ++ sizesArr.getD i "undefined" := by
  have hb0 : 0 < b := Nat.lt_of_lt_of_le (Nat.pos_pow_of_pos i (by omega)) h1
  have hlog : Nat.log 1024 b = i := Nat.log_eq_of_pow_le_of_lt_pow h1 h2
  unfold formatFileSize
  rw [if_neg (by intro hc; rw [Nat.beq_eq_true_eq] at hc; omega), hlog]

/-- C7: `formatFileSize` renders with binary units `Bytes/KB/MB/GB` at
two-decimal precision, choosing the largest unit of which the value is at
least 1 (the bracketing hypothesis below); `0` renders as `"0 Bytes"`,
`1536` as `"1.5 KB"`, and `10 * 1024 * 1024` as `"10 MB"`. -/
theorem formatFileSize_spec :
    formatFileSize 0 = "0 Bytes" ∧
    formatFileSize 1536 = "1.5 KB" ∧
    formatFileSize (10 * 1024 * 1024) = "10 MB" ∧
    ∀ b i, 1024 ^ i ≤ b → b < 1024 ^ (i + 1) →
      formatFileSize b =
        fmt2 (roundHalfUp (b * 100) (1024 ^ i)) ++ " " ++ sizesArr.getD i "undefined" := by
  refine ⟨rfl, ?_, ?_, fun b i h1 h2 => formatFileSize_unit b i h1 h2⟩
  · rw [formatFileSize_unit 1536 1 (by norm_num) (by norm_num)]
    rfl
  · rw [formatFileSize_unit (10 * 1024 * 1024) 2 (by norm_num) (by norm_num)]
    rfl

/-- C7 witness: the bracketing hypothesis instantiated at `2048`, unit
`KB`, giving `"2 KB"`. -/
theorem formatFileSize_spec_witness :
    1024 ^ 1 ≤ 2048 ∧ 2048 < 1024 ^ (1 + 1) ∧ formatFileSize 2048 = "2 KB" := by
  refine ⟨by norm_num, by norm_num, ?_⟩
  rw [formatFileSize_spec.2.2.2 2048 1 (by norm_num) (by norm_num)]
  rfl

/-! ## The search claim (C2)

For patterns free of `LIKE` metacharacters, matching `%t%` is exactly
substring containment; the lemmas below establish this and relate the
boolean containment test to its existential characterization. -/

/-- `isPrefixB` decides the existential "starts with". -/
theorem isPrefixB_iff (t s : List Char) : isPrefixB t s = true ↔ ∃ u, s = t ++ u := by
  induction t generalizing s with
  | nil => simp [isPrefixB]
  | cons a t ih =>
    cases s with
    | nil =>
      simp only [isPrefixB]
      constructor
      · intro h; cases h
      · rintro ⟨u, hu⟩; cases hu
    | cons b s =>
      simp only [isPrefixB, Bool.and_eq_true, beq_iff_eq, ih]
      constructor
      · rintro ⟨rfl, u, rfl⟩
        exact ⟨u, rfl⟩
      · rintro ⟨u, hu⟩
        rw [List.cons_append] at hu
        obtain ⟨rfl, rfl⟩ : b = a ∧ s = t ++ u := by
          constructor
          · exact (List.cons.injEq .. ▸ congrArg id hu : _ ∧ _).1
          · exact (List.cons.injEq .. ▸ congrArg id hu : _ ∧ _).2
        exact ⟨rfl, u, rfl⟩

/-- `isSubseg` decides the existential "occurs contiguously inside". -/
theorem isSubseg_iff (t s : List Char) : isSubseg t s = true ↔ ∃ u v, s = u ++ t ++ v := by
  induction s with
  | nil =>
    simp only [isSubseg, isPrefixB_iff]
    constructor
    · rintro ⟨u, hu⟩
      exact ⟨[], u, hu⟩
    · rintro ⟨u, v, huv⟩
      cases u with
      | nil => exact ⟨v, by simpa using huv⟩
      | cons x xs => cases huv
  | cons c s ih =>
    simp only [isSubseg, Bool.or_eq_true, isPrefixB_iff, ih]
    constructor
    · rintro (⟨u, hu⟩ | ⟨u, v, huv⟩)
      · exact ⟨[], u, by simpa using hu⟩
      · exact ⟨c :: u, v, by simp [huv]⟩
    · rintro ⟨u, v, huv⟩
      cases u with
      | nil => exact Or.inl ⟨v, by simpa using huv⟩
      | cons x xs =>
        rw [List.cons_append, List.cons_append, List.cons.injEq] at huv
        exact Or.inr ⟨xs, v, by simp [huv.2]⟩

/-- A bare `%` pattern accepts every string. -/
theorem tokMatch_any_nil : ∀ s, tokMatch [LTok.any] s = true := by
  intro s
  induction s with
  | nil => rfl
  | cons c s ihs =>
    show suffixAny (tokMatch []) (c :: s) = true
    unfold suffixAny
    rw [show suffixAny (tokMatch []) s = tokMatch [LTok.any] s from rfl, ihs,
      Bool.or_true]

/-- A literal-token pattern followed by one `%` matches exactly the
strings starting with those literals. -/
theorem tokMatch_lit_any (t : List Char) :
    ∀ s, tokMatch (t.map LTok.lit ++ [LTok.any]) s = isPrefixB t s := by
  induction t with
  | nil =>
    intro s
    rw [show ([] : List Char).map LTok.lit ++ [LTok.any] = [LTok.any] from rfl,
      tokMatch_any_nil]
    rfl
  | cons a t ih =>
    intro s
    cases s with
    | nil => rfl
    | cons c s => simp [tokMatch, isPrefixB, ih]

/-- The pattern `%t%` with `t` all-literal matches exactly the strings
containing `t` contiguously. -/
theorem tokMatch_any_lit_any (t : List Char) :
    ∀ s, tokMatch (LTok.any :: (t.map LTok.lit ++ [LTok.any])) s = isSubseg t s := by
  intro s
  induction s with
  | nil =>
    show suffixAny (tokMatch (t.map LTok.lit ++ [LTok.any])) [] = isSubseg t []
    unfold suffixAny isSubseg
    rw [tokMatch_lit_any]
  | cons c s ihs =>
    show suffixAny (tokMatch (t.map LTok.lit ++ [LTok.any])) (c :: s) = isSubseg t (c :: s)
    unfold suffixAny isSubseg
    rw [tokMatch_lit_any]
    have ihs2 : suffixAny (tokMatch (t.map LTok.lit ++ [LTok.any])) s = isSubseg t s := ihs
    rw [ihs2]

/-- Lexing a metacharacter-free pattern yields only literal tokens. -/
theorem lexPat_noMeta_append (t : List Char) (h : noMeta t = true) :
    lexPat (t ++ ['%']) = t.map LTok.lit ++ [LTok.any] := by
  induction t with
  | nil => rfl
  | cons a t ih =>
    have ha := (List.all_eq_true.mp h) a (List.mem_cons_self a t)
    rw [decide_eq_true_eq] at ha
    have ht : noMeta t = true :=
      List.all_eq_true.mpr fun x hx => (List.all_eq_true.mp h) x (List.mem_cons_of_mem a hx)
    rw [List.cons_append]
    unfold lexPat
    rw [if_neg ha.2.2, if_neg ha.1, if_neg ha.2.1, ih ht]
    rfl

/-- `Char.ofNat` on a plain-latin codepoint. -/
theorem toNat_ofNat_small (n : Nat) (h : n < 55296) : (Char.ofNat n).toNat = n := by
  unfold Char.ofNat
  rw [dif_pos (Or.inl h)]
  rfl

/-- Lowercasing cannot produce a character below codepoint 97 that was
not already there; in particular it cannot introduce `%`, `_` or `\`. -/
theorem toLower_ne_low {c m : Char} (hm : m.toNat < 97) (hne : c ≠ m) :
    Char.toLower c ≠ m := by
  by_cases hcond : c.toNat ≥ 65 ∧ c.toNat ≤ 90
  · have hl : Char.toLower c = Char.ofNat (c.toNat + 32) := by
      unfold Char.toLower
      exact if_pos hcond
    rw [hl]
    intro hEq
    have hv : (Char.ofNat (c.toNat + 32)).toNat = c.toNat + 32 :=
      toNat_ofNat_small _ (by omega)
    rw [hEq] at hv
    omega
  · have hl : Char.toLower c = c := by
      unfold Char.toLower
      exact if_neg hcond
    rw [hl]
    exact hne

/-- A metacharacter-free search term stays metacharacter-free after the
lowercasing `ILIKE` performs. -/
theorem noMeta_lowerL (t : String) (h : noMeta t.data = true) :
    noMeta (lowerL t) = true := by
  refine List.all_eq_true.mpr ?_
  intro c hc
  rcases List.mem_map.mp hc with ⟨d, hd, rfl⟩
  have hd3 := List.all_eq_true.mp h d hd
  rw [decide_eq_true_eq] at hd3 ⊢
  exact ⟨toLower_ne_low (by decide) hd3.1, toLower_ne_low (by decide) hd3.2.1,
    toLower_ne_low (by decide) hd3.2.2⟩

/-- For a metacharacter-free search term the where-clause test is exactly
case-insensitive substring containment. -/
theorem ilikeContains_eq_containsCI (t s : String) (h : noMeta t.data = true) :
    ilikeContains t s = containsCI t s := by
  unfold ilikeContains containsCI
  have h1 : ('%' :: lowerL t) ++ ['%'] = '%' :: (lowerL t ++ ['%']) := rfl
  have h2 : lexPat ('%' :: (lowerL t ++ ['%'])) = LTok.any :: lexPat (lowerL t ++ ['%']) := by
    rw [lexPat.eq_def]
    simp
  rw [h1, h2, lexPat_noMeta_append _ (noMeta_lowerL t h), tokMatch_any_lit_any]

/-- C2 counterexample: the search term `"_"` is passed through `ILIKE`
unescaped, so it matches *any* single character: the listing for `"_"`
returns a record although neither of its names contains an underscore. -/
theorem listFiles_search_counterexample :
    (listFilesResult [⟨"id1", "ab", "ab.pdf", "fn", "p", 3, "application/pdf", 0⟩]
        (some "_") 1 10).files =
      [⟨"id1", "ab", "ab.pdf", "fn", "p", 3, "application/pdf", 0⟩] ∧
    containsCI "_" "ab" = false ∧ containsCI "_" "ab.pdf" = false := by
  refine ⟨by decide, by decide, by decide⟩

/-- C2 amended: for every non-empty search term free of the `LIKE`
metacharacters `%`, `_` and `\`, the where-clause selects exactly the
records whose `customName` or `originalName` contains the term as a
case-insensitive substring; and the claim's examples hold: after
uploading `report.pdf` with custom name `Q1-Report`, the searches `"q1"`
and `"REPORT"` return that record and the search `"xyz"` returns the
empty list. -/
theorem listFiles_search_amended :
    (∀ (cat : List FileRecord) (t : String) (r : FileRecord),
        t ≠ "" → noMeta t.data = true →
        (r ∈ filteredRows cat (some t) ↔
          r ∈ cat ∧
            (containsCI t r.custom_name = true ∨ containsCI t r.original_name = true))) ∧
    (∀ q : String,
      q = "q1" ∨ q = "REPORT" →
      (listFilesResult
          (uploadHandler
            { files := [⟨"report.pdf", "application/pdf", 3, "fn", "p"⟩],
              customNames := CustomNamesField.given ["Q1-Report"] }
            (fun _ => "u1") 0 []).catalog
          (some q) 1 10).files =
        [⟨"u1", "Q1-Report", "report.pdf", "fn", "p", 3, "application/pdf", 0⟩]) ∧
    (listFilesResult
        (uploadHandler
          { files := [⟨"report.pdf", "application/pdf", 3, "fn", "p"⟩],
            customNames := CustomNamesField.given ["Q1-Report"] }
          (fun _ => "u1") 0 []).catalog
        (some "xyz") 1 10).files = [] := by
  refine ⟨?_, ?_, by decide⟩
  · intro cat t r ht hm
    have hfr : filteredRows cat (some t) = cat.filter (matchesSearch t) := by
      show (if (t == "") = true then cat else cat.filter (matchesSearch t)) =
        cat.filter (matchesSearch t)
      rw [if_neg (by intro hc; exact ht (by simpa using hc))]
    rw [hfr, List.mem_filter]
    unfold matchesSearch
    rw [ilikeContains_eq_containsCI t _ hm, ilikeContains_eq_containsCI t _ hm,
      Bool.or_eq_true]
  · rintro q (rfl | rfl)
    · decide
    · decide

/-- C2 amended witness: the selection characterization instantiated on
the concrete `Q1-Report` record and the term `"q1"`. -/
theorem listFiles_search_amended_witness :
    ("q1" : String) ≠ "" ∧ noMeta ("q1" : String).data = true ∧
    (⟨"u1", "Q1-Report", "report.pdf", "fn", "p", 3, "application/pdf", 0⟩ ∈
        filteredRows [⟨"u1", "Q1-Report", "report.pdf", "fn", "p", 3, "application/pdf", 0⟩]
          (some "q1") ↔
      (⟨"u1", "Q1-Report", "report.pdf", "fn", "p", 3, "application/pdf", 0⟩ : FileRecord) ∈
          [(⟨"u1", "Q1-Report", "report.pdf", "fn", "p", 3, "application/pdf", 0⟩ : FileRecord)] ∧
        (containsCI "q1" "Q1-Report" = true ∨ containsCI "q1" "report.pdf" = true)) := by
  refine ⟨by decide, by decide, ?_⟩
  exact listFiles_search_amended.1
    [⟨"u1", "Q1-Report", "report.pdf", "fn", "p", 3, "application/pdf", 0⟩]
    "q1" ⟨"u1", "Q1-Report", "report.pdf", "fn", "p", 3, "application/pdf", 0⟩
    (by decide) (by decide)

end PdfUpload
